import Mathlib

set_option linter.unusedVariables false
set_option maxRecDepth 4096

/-!
# Verification of the CHIP-8 interpreter core (src/core/src/lib.rs)

Shallow embedding of the `Core` struct and its instruction handlers.

Modelling conventions:
* `u8`/`u16` machine integers are `Nat`, with `% 256` / `% 65536` written
  explicitly at every operation where the Rust code wraps
  (`wrapping_add`, `wrapping_sub`, u16 `+=`, u8 `<<`).  Operations that
  cannot overflow in the source (e.g. the u16 sum of two u8 values in
  `add`) are written without a reduction, exactly as the source computes
  them on in-range values.
* `ram` (4096 bytes), `display` (64*32 booleans, row-major) and `v_reg`
  (16 registers) are total functions from `Nat`; the Rust arrays trap on
  an out-of-range index, and every theorem below only exercises in-range
  indices.
* The `VecDeque` call stack is used only through `push_back`/`pop_back`,
  i.e. as a LIFO stack; it is modelled as a `List` whose head is the back
  (most recently pushed) element.
* `rand::random::<u8>()` is an external input, modelled as an explicit
  oracle argument `rnd` threaded through `cycle`/`decode_and_exec`
  (reduced `% 256` where the source draws a `u8`).
* `ret_subroutine` panics (`expect`) on an empty stack; fallible
  execution is modelled with `Option Core`, `none` standing for the
  process abort.
* The `dbg!` logging on unmatched opcodes has no effect on machine
  state and is dropped.
-/

structure Core where
  pc : Nat
  ram : Nat → Nat
  stack : List Nat
  display : Nat → Bool
  d_timer : Nat
  s_timer : Nat
  i_reg : Nat
  v_reg : Nat → Nat
  legacy : Bool

/-- The 80-byte hexadecimal font table written at 0x50 by `load_sprites`. -/
def fontData : List Nat :=
  [0xF0, 0x90, 0x90, 0x90, 0xF0,
   0x20, 0x60, 0x20, 0x20, 0x70,
   0xF0, 0x10, 0xF0, 0x80, 0xF0,
   0xF0, 0x10, 0xF0, 0x10, 0xF0,
   0x90, 0x90, 0xF0, 0x10, 0x10,
   0xF0, 0x80, 0xF0, 0x10, 0xF0,
   0xF0, 0x80, 0xF0, 0x90, 0xF0,
   0xF0, 0x10, 0x20, 0x40, 0x40,
   0xF0, 0x90, 0xF0, 0x90, 0xF0,
   0xF0, 0x90, 0xF0, 0x10, 0xF0,
   0xF0, 0x90, 0xF0, 0x90, 0x90,
   0xE0, 0x90, 0xE0, 0x90, 0xE0,
   0xF0, 0x80, 0x80, 0x80, 0xF0,
   0xE0, 0x90, 0x90, 0x90, 0xE0,
   0xF0, 0x80, 0xF0, 0x80, 0xF0,
   0xF0, 0x80, 0xF0, 0x80, 0x80]

/-- Source `Core::new`: zeroed state, font table at 0x50..0xA0, program image at
0x200.., program counter 0x200. -/
def Core.new (program : List Nat) (legacy : Bool) : Core :=
  { pc := 0x200
    ram := fun i =>
      if 0x200 ≤ i ∧ i < 0x200 + program.length then program.getD (i - 0x200) 0
      else if 0x50 ≤ i ∧ i < 0xA0 then fontData.getD (i - 0x50) 0
      else 0
    stack := []
    display := fun _ => false
    d_timer := 0
    s_timer := 0
    i_reg := 0
    v_reg := fun _ => 0
    legacy := legacy }

/-- Source `decrement_timers`: each timer decreases by 1 if nonzero. -/
def Core.decrement_timers (s : Core) : Core :=
  { s with
    d_timer := if 0 < s.d_timer then s.d_timer - 1 else s.d_timer
    s_timer := if 0 < s.s_timer then s.s_timer - 1 else s.s_timer }

/-- Source `noop` (opcode 0000): no state change. -/
def Core.noop (s : Core) : Core := s

/-- Source `clear_screen` (00E0). -/
def Core.clear_screen (s : Core) : Core :=
  { s with display := fun _ => false }

/-- Source `jump` (1nnn): pc := nnn. -/
def Core.jump (s : Core) (addr : Nat) : Core :=
  { s with pc := addr }

/-- Source `call` (2nnn): push current pc (the back of the deque is the list
head), pc := nnn. -/
def Core.call (s : Core) (addr : Nat) : Core :=
  { s with stack := s.pc :: s.stack, pc := addr }

/-- Source `ret_subroutine` (00EE): pop the back of the stack into pc; the
`expect` panic on an empty stack is `none`. -/
def Core.ret_subroutine (s : Core) : Option Core :=
  match s.stack with
  | [] => none
  | a :: l => some { s with pc := a, stack := l }

/-- Source `skip_eq_val` (3xnn). -/
def Core.skip_eq_val (s : Core) (rest : Nat) : Core :=
  if s.v_reg ((rest &&& 0xF00) >>> 8) = rest &&& 0x0FF then
    { s with pc := (s.pc + 2) % 65536 }
  else s

/-- Source `skip_neq_val` (4xnn). -/
def Core.skip_neq_val (s : Core) (rest : Nat) : Core :=
  if s.v_reg ((rest &&& 0xF00) >>> 8) ≠ rest &&& 0x0FF then
    { s with pc := (s.pc + 2) % 65536 }
  else s

/-- Source `skip_eq_reg` (family 5; the low nibble is not inspected). -/
def Core.skip_eq_reg (s : Core) (rest : Nat) : Core :=
  if s.v_reg ((rest &&& 0xF00) >>> 8) = s.v_reg ((rest &&& 0x0F0) >>> 4) then
    { s with pc := (s.pc + 2) % 65536 }
  else s

/-- Source `skip_neq_reg` (family 9; the low nibble is not inspected). -/
def Core.skip_neq_reg (s : Core) (rest : Nat) : Core :=
  if s.v_reg ((rest &&& 0xF00) >>> 8) ≠ s.v_reg ((rest &&& 0x0F0) >>> 4) then
    { s with pc := (s.pc + 2) % 65536 }
  else s

/-- Source `set_v` (6xnn). -/
def Core.set_v (s : Core) (rest : Nat) : Core :=
  { s with v_reg := Function.update s.v_reg ((rest &&& 0xF00) >>> 8) (rest &&& 0xFF) }

/-- Source `add_v_no_carry` (7xnn): u8 `wrapping_add`. -/
def Core.add_v_no_carry (s : Core) (rest : Nat) : Core :=
  { s with v_reg := (Function.update s.v_reg ((rest &&& 0xF00) >>> 8)
      ((s.v_reg ((rest &&& 0xF00) >>> 8) + (rest &&& 0xFF)) % 256)) }

/-- Source `set` (8xy0). -/
def Core.set (s : Core) (rest : Nat) : Core :=
  { s with v_reg := (Function.update s.v_reg ((rest &&& 0xF00) >>> 8)
      (s.v_reg ((rest &&& 0x0F0) >>> 4))) }

/-- Source `or` (8xy1). -/
def Core.or (s : Core) (rest : Nat) : Core :=
  { s with v_reg := (Function.update s.v_reg ((rest &&& 0xF00) >>> 8)
      (s.v_reg ((rest &&& 0xF00) >>> 8) ||| s.v_reg ((rest &&& 0x0F0) >>> 4))) }

/-- Source `and` (8xy2). -/
def Core.and (s : Core) (rest : Nat) : Core :=
  { s with v_reg := (Function.update s.v_reg ((rest &&& 0xF00) >>> 8)
      (s.v_reg ((rest &&& 0xF00) >>> 8) &&& s.v_reg ((rest &&& 0x0F0) >>> 4))) }

/-- Source `xor` (8xy3). -/
def Core.xor (s : Core) (rest : Nat) : Core :=
  { s with v_reg := (Function.update s.v_reg ((rest &&& 0xF00) >>> 8)
      (s.v_reg ((rest &&& 0xF00) >>> 8) ^^^ s.v_reg ((rest &&& 0x0F0) >>> 4))) }

/-- Source `add` (8xy4): the 9-bit sum is taken from the pre-instruction
registers, then VF receives the carry, then Vx receives the low byte
(so with x = 0xF the result write lands last, on top of the flag). -/
def Core.add (s : Core) (rest : Nat) : Core :=
  let x := (rest &&& 0xF00) >>> 8
  let y := (rest &&& 0x0F0) >>> 4
  let sum := s.v_reg x + s.v_reg y
  let v1 := Function.update s.v_reg 0xF (if sum < 256 then 0 else 1)
  { s with v_reg := Function.update v1 x (sum &&& 0xFF) }

/-- Source `sub` (8xy5 / 8xy7, selected by the low nibble): VF receives the
no-borrow flag computed from the pre-instruction registers, and only
then are the operands re-read for the u8 `wrapping_sub` (modelled as
`(a + 256 - b) % 256`); hence a flag write to VF is visible to the
subtraction when x or y is 0xF. -/
def Core.sub (s : Core) (rest : Nat) : Core :=
  let x := (rest &&& 0xF00) >>> 8
  let y := (rest &&& 0x0F0) >>> 4
  let m := if rest &&& 0xF = 5 then x else y
  let sb := if rest &&& 0xF = 5 then y else x
  let v1 := Function.update s.v_reg 0xF (if s.v_reg sb ≤ s.v_reg m then 1 else 0)
  { s with v_reg := Function.update v1 x ((v1 m + 256 - v1 sb) % 256) }

/-- Source `right_shift` (8xy6): in legacy mode Vy is copied into Vx first;
then VF := Vx & 1 (the about-to-be-lost bit), then Vx := Vx >> 1, each
step reading the register file left by the previous one. -/
def Core.right_shift (s : Core) (rest : Nat) : Core :=
  let x := (rest &&& 0xF00) >>> 8
  let v0 := if s.legacy then
    Function.update s.v_reg x (s.v_reg ((rest &&& 0x0F0) >>> 4))
  else s.v_reg
  let v1 := Function.update v0 0xF (v0 x &&& 1)
  { s with v_reg := Function.update v1 x (v1 x >>> 1) }

/-- Source `left_shift` (8xyE): in legacy mode Vy is copied into Vx first;
then VF := Vx >> 7 (the high bit), then Vx := Vx << 1 truncated to u8. -/
def Core.left_shift (s : Core) (rest : Nat) : Core :=
  let x := (rest &&& 0xF00) >>> 8
  let v0 := if s.legacy then
    Function.update s.v_reg x (s.v_reg ((rest &&& 0x0F0) >>> 4))
  else s.v_reg
  let v1 := Function.update v0 0xF (v0 x >>> 7)
  { s with v_reg := Function.update v1 x ((v1 x <<< 1) % 256) }

/-- Source `set_i` (Annn). -/
def Core.set_i (s : Core) (addr : Nat) : Core :=
  { s with i_reg := addr }

/-- Source `jump_offset` (Bnnn): u16 sum of V0 and nnn. -/
def Core.jump_offset (s : Core) (rest : Nat) : Core :=
  { s with pc := (s.v_reg 0 + rest) % 65536 }

/-- Source `rand` (Cxnn) with the random u8 supplied as the oracle `rnd`. -/
def Core.rand (s : Core) (rest rnd : Nat) : Core :=
  { s with v_reg := (Function.update s.v_reg ((rest &&& 0xF00) >>> 8)
      ((rnd % 256) &&& (rest &&& 0x0FF))) }

/-- Source `key_skip` (family E): Ex9E / ExA1 skip on key state; any other low
byte falls through with no state change. -/
def Core.key_skip (s : Core) (rest : Nat) (keys : List Nat) : Core :=
  let key_pressed := keys.contains (s.v_reg ((rest &&& 0xF00) >>> 8))
  if rest &&& 0x0FF = 0x9E then
    (if key_pressed then { s with pc := (s.pc + 2) % 65536 } else s)
  else if rest &&& 0x0FF = 0xA1 then
    (if key_pressed then s else { s with pc := (s.pc + 2) % 65536 })
  else s

/-- Source `await_key` (Fx0A): with a key down, Vx := keys[0]; otherwise the
program counter is rolled back by 2 (u16 wrapping subtraction). -/
def Core.await_key (s : Core) (rest : Nat) (keys : List Nat) : Core :=
  match keys with
  | [] => { s with pc := (s.pc + 65534) % 65536 }
  | k :: _ => { s with v_reg := Function.update s.v_reg ((rest &&& 0xF00) >>> 8) k }

/-- Source `set_i_font` (Fx29): `0x50 + Vx * 5` computed in u8 before the
widening to u16. -/
def Core.set_i_font (s : Core) (rest : Nat) : Core :=
  { s with i_reg := (0x50 + (s.v_reg ((rest &&& 0xF00) >>> 8) * 5) % 256) % 256 }

/-- Source `bcd` (Fx33): the three decimal digits of Vx at ram[I..I+2],
most significant first. -/
def Core.bcd (s : Core) (rest : Nat) : Core :=
  let v := s.v_reg ((rest &&& 0xF00) >>> 8)
  let i := s.i_reg
  { s with ram := fun j =>
      if j = i then v / 100 % 10
      else if j = i + 1 then v / 10 % 10
      else if j = i + 2 then v % 10
      else s.ram j }

/-- Source `store_mem` (Fx55): registers V0..Vx into ram[I..I+x]. -/
def Core.store_mem (s : Core) (rest : Nat) : Core :=
  let x := (rest &&& 0xF00) >>> 8
  let i := s.i_reg
  { s with ram := fun j =>
      if i ≤ j ∧ j ≤ i + x then s.v_reg (j - i) else s.ram j }

/-- Source `fill_mem` (Fx65): ram[I..I+x] into registers V0..Vx. -/
def Core.fill_mem (s : Core) (rest : Nat) : Core :=
  let x := (rest &&& 0xF00) >>> 8
  { s with v_reg := fun k =>
      if k ≤ x then s.ram (s.i_reg + k) else s.v_reg k }

/-- One column step predicate of `draw_sprite`: the sprite bit for
column offset `c` of a row byte (mask `0b10000000 >> c`, i.e. the
most significant bit lands on the leftmost pixel). -/
def spritePixel (rowByte c : Nat) : Bool :=
  (rowByte &&& (128 >>> c)) != 0

/-- Inner column loop of `draw_sprite` (`for c in 0..8` with `break` at
the right screen edge), written with an explicit countdown of the
remaining iterations (`fuel + c = 8` at every call from `drawRows`).
Returns the display and the VF accumulator. -/
def drawCols (rowByte initX rowPos : Nat) :
    Nat → Nat → (Nat → Bool) → Nat → ((Nat → Bool) × Nat)
  | 0, _, disp, vf => (disp, vf)
  | fuel + 1, c, disp, vf =>
    if 64 ≤ initX + c then (disp, vf)
    else
      let idx := 64 * rowPos + (initX + c)
      if spritePixel rowByte c && disp idx then
        drawCols rowByte initX rowPos fuel (c + 1) (Function.update disp idx false) 1
      else if spritePixel rowByte c && !(disp idx) then
        drawCols rowByte initX rowPos fuel (c + 1) (Function.update disp idx true) vf
      else
        drawCols rowByte initX rowPos fuel (c + 1) disp vf

/-- Outer row loop of `draw_sprite` (`for r in 0..sprite_height` with
`break` below the bottom screen edge), with the remaining iteration
count explicit (`fuel + r = n` at every call). -/
def drawRows (ram : Nat → Nat) (ptr initX initY : Nat) :
    Nat → Nat → (Nat → Bool) → Nat → ((Nat → Bool) × Nat)
  | 0, _, disp, vf => (disp, vf)
  | fuel + 1, r, disp, vf =>
    let rowByte := ram (ptr + r)
    let rowPos := initY + r
    if 32 ≤ rowPos then (disp, vf)
    else
      let p := drawCols rowByte initX rowPos 8 0 disp vf
      drawRows ram ptr initX initY fuel (r + 1) p.1 p.2

/-- Source `draw_sprite` (Dxyn): origin (Vx % 64, Vy % 32) from the
pre-instruction registers, VF cleared, then the row/column loops. -/
def Core.draw_sprite (s : Core) (rest : Nat) : Core :=
  let initX := s.v_reg ((rest &&& 0xF00) >>> 8) % 64
  let initY := s.v_reg ((rest &&& 0x0F0) >>> 4) % 32
  let n := rest &&& 0x00F
  let p := drawRows s.ram s.i_reg initX initY n 0 s.display 0
  { s with display := p.1, v_reg := Function.update s.v_reg 0xF p.2 }

/-- Source `fetch`: big-endian instruction word at pc, pc advanced by 2 (u16)
before execution. -/
def Core.fetch (s : Core) : Core × Nat :=
  ({ s with pc := (s.pc + 2) % 65536 }, (s.ram s.pc) <<< 8 + s.ram (s.pc + 1))

/-- Source `decode_and_exec`: dispatch on the top nibble, then (families 0, 8,
E, F) on the low byte or low nibble, mirroring the source `match`
arms in order; unmatched patterns only log and leave the state as is. -/
def Core.decode_and_exec (s : Core) (w : Nat) (keys : List Nat) (rnd : Nat) : Option Core :=
  let nib := (w &&& 0xF000) >>> 12
  let rest := w &&& 0x0FFF
  if nib = 0x0 then
    if rest = 0x000 then some (Core.noop s)
    else if rest = 0x0E0 then some (Core.clear_screen s)
    else if rest = 0x0EE then Core.ret_subroutine s
    else some s
  else if nib = 0x1 then some (Core.jump s rest)
  else if nib = 0x2 then some (Core.call s rest)
  else if nib = 0x3 then some (Core.skip_eq_val s rest)
  else if nib = 0x4 then some (Core.skip_neq_val s rest)
  else if nib = 0x5 then some (Core.skip_eq_reg s rest)
  else if nib = 0x9 then some (Core.skip_neq_reg s rest)
  else if nib = 0x6 then some (Core.set_v s rest)
  else if nib = 0x7 then some (Core.add_v_no_carry s rest)
  else if nib = 0x8 then
    if rest &&& 0xF = 0x0 then some (Core.set s rest)
    else if rest &&& 0xF = 0x1 then some (Core.or s rest)
    else if rest &&& 0xF = 0x2 then some (Core.and s rest)
    else if rest &&& 0xF = 0x3 then some (Core.xor s rest)
    else if rest &&& 0xF = 0x4 then some (Core.add s rest)
    else if rest &&& 0xF = 0x5 then some (Core.sub s rest)
    else if rest &&& 0xF = 0x7 then some (Core.sub s rest)
    else if rest &&& 0xF = 0x6 then some (Core.right_shift s rest)
    else if rest &&& 0xF = 0xE then some (Core.left_shift s rest)
    else some s
  else if nib = 0xA then some (Core.set_i s rest)
  else if nib = 0xB then some (Core.jump_offset s rest)
  else if nib = 0xC then some (Core.rand s rest rnd)
  else if nib = 0xD then some (Core.draw_sprite s rest)
  else if nib = 0xE then some (Core.key_skip s rest keys)
  else if nib = 0xF then
    if rest &&& 0xFF = 0x07 then
      some { s with v_reg := Function.update s.v_reg ((rest &&& 0xF00) >>> 8) s.d_timer }
    else if rest &&& 0xFF = 0x15 then
      some { s with d_timer := s.v_reg ((rest &&& 0xF00) >>> 8) }
    else if rest &&& 0xFF = 0x18 then
      some { s with s_timer := s.v_reg ((rest &&& 0xF00) >>> 8) }
    else if rest &&& 0xFF = 0x0A then some (Core.await_key s rest keys)
    else if rest &&& 0xFF = 0x1E then
      some { s with i_reg := (s.i_reg + s.v_reg ((rest &&& 0xF00) >>> 8)) % 65536 }
    else if rest &&& 0xFF = 0x29 then some (Core.set_i_font s rest)
    else if rest &&& 0xFF = 0x33 then some (Core.bcd s rest)
    else if rest &&& 0xFF = 0x55 then some (Core.store_mem s rest)
    else if rest &&& 0xFF = 0x65 then some (Core.fill_mem s rest)
    else some s
  else some s

/-- Source `cycle`: one fetch-decode-execute step; `none` is a process abort
(stack underflow panic). -/
def Core.cycle (s : Core) (keys : List Nat) (rnd : Nat) : Option Core :=
  let f := Core.fetch s
  Core.decode_and_exec f.1 f.2 keys rnd

/-- Machine states reachable from construction by executing cycles
(with arbitrary key input and random oracle). -/
inductive Reachable : Core → Prop where
  | base : ∀ program legacy, Reachable (Core.new program legacy)
  | step : ∀ s keys rnd s', Reachable s → Core.cycle s keys rnd = some s' → Reachable s'

/-- The instruction patterns listed in the specification table (§4.3):
00E0, 00EE, 1nnn-7nnn, 5xy0, 9xy0, 8xy{0-7,E}, Annn-Dxyn, Ex9E, ExA1
and the nine Fx suffixes. Anything else is a decode failure per the spec. -/
def validOpcode (w : Nat) : Bool :=
  let nib := (w &&& 0xF000) >>> 12
  let rest := w &&& 0x0FFF
  (w == 0x00E0) || (w == 0x00EE) ||
  (nib == 0x1) || (nib == 0x2) || (nib == 0x3) || (nib == 0x4) ||
  ((nib == 0x5) && (rest &&& 0xF == 0)) ||
  ((nib == 0x9) && (rest &&& 0xF == 0)) ||
  (nib == 0x6) || (nib == 0x7) ||
  ((nib == 0x8) &&
    ((rest &&& 0xF == 0x0) || (rest &&& 0xF == 0x1) || (rest &&& 0xF == 0x2) ||
     (rest &&& 0xF == 0x3) || (rest &&& 0xF == 0x4) || (rest &&& 0xF == 0x5) ||
     (rest &&& 0xF == 0x6) || (rest &&& 0xF == 0x7) || (rest &&& 0xF == 0xE))) ||
  (nib == 0xA) || (nib == 0xB) || (nib == 0xC) || (nib == 0xD) ||
  ((nib == 0xE) && ((rest &&& 0xFF == 0x9E) || (rest &&& 0xFF == 0xA1))) ||
  ((nib == 0xF) &&
    ((rest &&& 0xFF == 0x07) || (rest &&& 0xFF == 0x0A) || (rest &&& 0xFF == 0x15) ||
     (rest &&& 0xFF == 0x18) || (rest &&& 0xFF == 0x1E) || (rest &&& 0xFF == 0x29) ||
     (rest &&& 0xFF == 0x33) || (rest &&& 0xFF == 0x55) || (rest &&& 0xFF == 0x65)))

/-! ## Bit-field extraction helpers -/

theorem and_mask_shift (r m k : Nat) :
    (r &&& ((2 ^ m - 1) <<< k)) >>> k = r / 2 ^ k % 2 ^ m := by
  apply Nat.eq_of_testBit_eq
  intro j
  rw [Nat.testBit_shiftRight, Nat.testBit_and, Nat.testBit_shiftLeft,
    Nat.testBit_two_pow_sub_one, ← Nat.shiftRight_eq_div_pow, Nat.testBit_mod_two_pow,
    Nat.testBit_shiftRight]
  simp [Nat.le_add_right, Bool.and_comm]

theorem mask_x (r : Nat) : (r &&& 0xF00) >>> 8 = r / 256 % 16 := by
  have h : (0xF00 : Nat) = (2 ^ 4 - 1) <<< 8 := by norm_num [Nat.shiftLeft_eq]
  rw [h, and_mask_shift]
  norm_num

theorem mask_y (r : Nat) : (r &&& 0x0F0) >>> 4 = r / 16 % 16 := by
  have h : (0x0F0 : Nat) = (2 ^ 4 - 1) <<< 4 := by norm_num [Nat.shiftLeft_eq]
  rw [h, and_mask_shift]
  norm_num

theorem mask_nib (w : Nat) : (w &&& 0xF000) >>> 12 = w / 4096 % 16 := by
  have h : (0xF000 : Nat) = (2 ^ 4 - 1) <<< 12 := by norm_num [Nat.shiftLeft_eq]
  rw [h, and_mask_shift]
  norm_num

theorem mask_n (r : Nat) : r &&& 0xF = r % 16 :=
  Nat.and_pow_two_sub_one_eq_mod r 4

theorem mask_nn (r : Nat) : r &&& 0xFF = r % 256 :=
  Nat.and_pow_two_sub_one_eq_mod r 8

theorem mask_rest (w : Nat) : w &&& 0xFFF = w % 4096 :=
  Nat.and_pow_two_sub_one_eq_mod w 12

theorem shiftRight_one (a : Nat) : a >>> 1 = a / 2 := by
  rw [Nat.shiftRight_eq_div_pow]

theorem shiftRight_seven (a : Nat) : a >>> 7 = a / 128 := by
  rw [Nat.shiftRight_eq_div_pow]

theorem shiftLeft_one (a : Nat) : a <<< 1 = a * 2 := by
  rw [Nat.shiftLeft_eq]

/-! ## Concrete states used by witnesses and counterexamples -/

/-- A machine state with given legacy flag and register file and
everything else blank (pc at 0x200, zero ram, empty stack, blank
display). -/
def mkTestCore (leg : Bool) (v : Nat → Nat) : Core :=
  { pc := 0x200, ram := fun _ => 0, stack := [], display := fun _ => false,
    d_timer := 0, s_timer := 0, i_reg := 0, v_reg := v, legacy := leg }

def c3core : Core := mkTestCore false fun i => if i = 15 then 1 else if i = 0 then 2 else 0

/-- Claim C3, counterexample to the universal quantification over the
register index x: for x = 0xF (instruction 8F04 with a = VF = 1,
b = V0 = 2) the final VF is the sum 3, not the carry flag 0 demanded by
the claim. -/
theorem c3_counterexample :
    (Core.add c3core 0xF04).v_reg 0xF ≠
      (if 256 ≤ c3core.v_reg 0xF + c3core.v_reg 0x0 then 1 else 0) := by
  decide

/-- Claim C3 (amended: the register indices x, y range over all pairs
with x ≠ 0xF; for x = 0xF the later result write overwrites the flag,
see claim C10): 8xy4 stores the 8-bit sum (a+b) mod 256 in Vx and sets
VF to the carry, 1 exactly when a + b ≥ 256. -/
theorem c3_add_carry (s : Core) (rest x y : Nat)
    (hx : (rest &&& 0xF00) >>> 8 = x) (hy : (rest &&& 0x0F0) >>> 4 = y)
    (hx15 : x ≠ 15)
    (ha : s.v_reg x < 256) (hb : s.v_reg y < 256) :
    (Core.add s rest).v_reg x = (s.v_reg x + s.v_reg y) % 256 ∧
    (Core.add s rest).v_reg 0xF = (if 256 ≤ s.v_reg x + s.v_reg y then 1 else 0) := by
  simp only [Core.add, hx, hy]
  constructor
  · rw [Function.update_same, mask_nn]
  · rw [Function.update_noteq (by omega : (0xF : Nat) ≠ x), Function.update_same]
    rcases Nat.lt_or_ge (s.v_reg x + s.v_reg y) 256 with h | h
    · rw [if_pos h, if_neg (by omega)]
    · rw [if_neg (by omega), if_pos h]

/-- Claim C3 witness at x = 1, y = 2, a = 200, b = 100. -/
theorem c3_add_carry_witness :
    (Core.add (mkTestCore false fun i => if i = 1 then 200 else if i = 2 then 100 else 0)
      0x124).v_reg 1 = 44 := by
  have h := c3_add_carry
    (mkTestCore false fun i => if i = 1 then 200 else if i = 2 then 100 else 0)
    0x124 1 2 (by decide) (by decide) (by decide) (by decide) (by decide)
  rw [h.1]
  decide

def c4core : Core := mkTestCore false fun i => if i = 15 then 3 else if i = 0 then 10 else 0

/-- Claim C4, counterexample to the implicit quantification over all
register indices: for y = 0xF (instruction 80F5, a = V0 = 10,
b = VF = 3) the flag write to VF precedes the operand re-read, so V0
receives (10 - 1) mod 256 = 9 instead of the claimed (10 - 3) mod 256
= 7. -/
theorem c4_counterexample :
    (Core.sub c4core 0x0F5).v_reg 0 ≠
      (c4core.v_reg 0 + 256 - c4core.v_reg 15) % 256 := by
  decide

/-- Claim C4 (amended: x and y both different from 0xF; when either is
0xF the interleaved flag write corrupts the operands, see claim C10):
8xy5 sets VF to 1 iff a ≥ b and stores (a - b) mod 256 — written
(a + 256 - b) % 256 on 8-bit values — in Vx; 8xy7 does the same with
the operands reversed, the result still landing in Vx. -/
theorem c4_sub_borrow (s : Core) (rest5 rest7 x y : Nat)
    (h5x : (rest5 &&& 0xF00) >>> 8 = x) (h5y : (rest5 &&& 0x0F0) >>> 4 = y)
    (h5n : rest5 &&& 0xF = 5)
    (h7x : (rest7 &&& 0xF00) >>> 8 = x) (h7y : (rest7 &&& 0x0F0) >>> 4 = y)
    (h7n : rest7 &&& 0xF = 7)
    (hx15 : x ≠ 15) (hy15 : y ≠ 15)
    (ha : s.v_reg x < 256) (hb : s.v_reg y < 256) :
    (Core.sub s rest5).v_reg x = (s.v_reg x + 256 - s.v_reg y) % 256 ∧
    (Core.sub s rest5).v_reg 0xF = (if s.v_reg y ≤ s.v_reg x then 1 else 0) ∧
    (Core.sub s rest7).v_reg x = (s.v_reg y + 256 - s.v_reg x) % 256 ∧
    (Core.sub s rest7).v_reg 0xF = (if s.v_reg x ≤ s.v_reg y then 1 else 0) := by
  refine ⟨?_, ?_, ?_, ?_⟩
  · simp only [Core.sub]
    rw [h5x, h5y, h5n]
    norm_num
    have e1 : (if (5 : Nat) = 5 then x else y) = x := rfl
    have e2 : (if (5 : Nat) = 5 then y else x) = y := rfl
    rw [e1, e2, Function.update_noteq hx15, Function.update_noteq hy15]
  · simp only [Core.sub]
    rw [h5x, h5y, h5n]
    norm_num
    rw [Function.update_noteq (Ne.symm hx15), Function.update_same]
  · simp only [Core.sub]
    rw [h7x, h7y, h7n]
    norm_num
    have e1 : (if (7 : Nat) = 5 then x else y) = y := rfl
    have e2 : (if (7 : Nat) = 5 then y else x) = x := rfl
    rw [e1, e2, Function.update_noteq hy15, Function.update_noteq hx15]
  · simp only [Core.sub]
    rw [h7x, h7y, h7n]
    norm_num
    rw [Function.update_noteq (Ne.symm hx15), Function.update_same]

/-- Claim C4 witness at x = 1, y = 2, a = 10, b = 30. -/
theorem c4_sub_borrow_witness :
    (Core.sub (mkTestCore false fun i => if i = 1 then 10 else if i = 2 then 30 else 0)
      0x125).v_reg 1 = 236 := by
  have h := c4_sub_borrow
    (mkTestCore false fun i => if i = 1 then 10 else if i = 2 then 30 else 0)
    0x125 0x127 1 2 (by decide) (by decide) (by decide) (by decide) (by decide)
    (by decide) (by decide) (by decide) (by decide) (by decide)
  rw [h.1]
  decide

/-- Claim C5: 8xy6/8xyE copy Vy into Vx before shifting in legacy mode
and shift Vx in place otherwise; VF receives the shifted-out bit of the
pre-shift value (low bit right, high bit left); for distinct 8-bit
contents of Vx and Vy (x, y, 0xF pairwise distinct) the two modes give
different (Vx, VF) result pairs. -/
theorem c5_shift_modes (s : Core) (rest6 restE x y : Nat)
    (h6x : (rest6 &&& 0xF00) >>> 8 = x) (h6y : (rest6 &&& 0x0F0) >>> 4 = y)
    (hEx : (restE &&& 0xF00) >>> 8 = x) (hEy : (restE &&& 0x0F0) >>> 4 = y)
    (hx15 : x ≠ 15) (hy15 : y ≠ 15) (hxy : x ≠ y)
    (ha : s.v_reg x < 256) (hb : s.v_reg y < 256) :
    (Core.right_shift { s with legacy := true } rest6).v_reg x = s.v_reg y / 2 ∧
    (Core.right_shift { s with legacy := true } rest6).v_reg 0xF = s.v_reg y % 2 ∧
    (Core.right_shift { s with legacy := false } rest6).v_reg x = s.v_reg x / 2 ∧
    (Core.right_shift { s with legacy := false } rest6).v_reg 0xF = s.v_reg x % 2 ∧
    (Core.left_shift { s with legacy := true } restE).v_reg x = s.v_reg y * 2 % 256 ∧
    (Core.left_shift { s with legacy := true } restE).v_reg 0xF = s.v_reg y / 128 ∧
    (Core.left_shift { s with legacy := false } restE).v_reg x = s.v_reg x * 2 % 256 ∧
    (Core.left_shift { s with legacy := false } restE).v_reg 0xF = s.v_reg x / 128 ∧
    (s.v_reg x ≠ s.v_reg y →
      ((Core.right_shift { s with legacy := true } rest6).v_reg x,
        (Core.right_shift { s with legacy := true } rest6).v_reg 0xF) ≠
      ((Core.right_shift { s with legacy := false } rest6).v_reg x,
        (Core.right_shift { s with legacy := false } rest6).v_reg 0xF)) ∧
    (s.v_reg x ≠ s.v_reg y →
      ((Core.left_shift { s with legacy := true } restE).v_reg x,
        (Core.left_shift { s with legacy := true } restE).v_reg 0xF) ≠
      ((Core.left_shift { s with legacy := false } restE).v_reg x,
        (Core.left_shift { s with legacy := false } restE).v_reg 0xF)) := by
  have hRLx : (Core.right_shift { s with legacy := true } rest6).v_reg x = s.v_reg y / 2 := by
    simp only [Core.right_shift]
    rw [h6x, h6y]
    simp [Function.update_noteq hx15, shiftRight_one]
  have hRLf : (Core.right_shift { s with legacy := true } rest6).v_reg 0xF = s.v_reg y % 2 := by
    simp only [Core.right_shift]
    rw [h6x, h6y]
    simp [Function.update_noteq hx15, Function.update_noteq (Ne.symm hx15)]
  have hRNx : (Core.right_shift { s with legacy := false } rest6).v_reg x = s.v_reg x / 2 := by
    simp only [Core.right_shift]
    rw [h6x, h6y]
    simp [Function.update_noteq hx15, shiftRight_one]
  have hRNf : (Core.right_shift { s with legacy := false } rest6).v_reg 0xF = s.v_reg x % 2 := by
    simp only [Core.right_shift]
    rw [h6x, h6y]
    simp [Function.update_noteq hx15, Function.update_noteq (Ne.symm hx15)]
  have hLLx : (Core.left_shift { s with legacy := true } restE).v_reg x = s.v_reg y * 2 % 256 := by
    simp only [Core.left_shift]
    rw [hEx, hEy]
    simp [Function.update_noteq hx15, shiftLeft_one]
  have hLLf : (Core.left_shift { s with legacy := true } restE).v_reg 0xF = s.v_reg y / 128 := by
    simp only [Core.left_shift]
    rw [hEx, hEy]
    simp [Function.update_noteq hx15, Function.update_noteq (Ne.symm hx15), shiftRight_seven]
  have hLNx : (Core.left_shift { s with legacy := false } restE).v_reg x = s.v_reg x * 2 % 256 := by
    simp only [Core.left_shift]
    rw [hEx, hEy]
    simp [Function.update_noteq hx15, shiftLeft_one]
  have hLNf : (Core.left_shift { s with legacy := false } restE).v_reg 0xF = s.v_reg x / 128 := by
    simp only [Core.left_shift]
    rw [hEx, hEy]
    simp [Function.update_noteq hx15, Function.update_noteq (Ne.symm hx15), shiftRight_seven]
  refine ⟨hRLx, hRLf, hRNx, hRNf, hLLx, hLLf, hLNx, hLNf, ?_, ?_⟩
  · intro hne heq
    rw [Prod.mk.injEq, hRLx, hRLf, hRNx, hRNf] at heq
    exact hne (by omega)
  · intro hne heq
    rw [Prod.mk.injEq, hLLx, hLLf, hLNx, hLNf] at heq
    exact hne (by omega)

/-- Claim C5 witness at x = 1, y = 2, Vx = 5, Vy = 6. -/
theorem c5_shift_modes_witness :
    (Core.right_shift
      { mkTestCore false (fun i => if i = 1 then 5 else if i = 2 then 6 else 0)
        with legacy := true } 0x126).v_reg 1 = 3 := by
  have h := c5_shift_modes
    (mkTestCore false fun i => if i = 1 then 5 else if i = 2 then 6 else 0)
    0x126 0x12E 1 2 (by decide) (by decide) (by decide) (by decide)
    (by decide) (by decide) (by decide) (by decide) (by decide)
  rw [h.1]
  decide

def c10core : Core := mkTestCore true fun i => if i = 15 then 128 else 0

/-- Claim C10, counterexample to two of its clauses.  First, with
x = 0xF the sub instructions re-read the operands after the flag write:
for 8F05 on VF = 128, V0 = 0 the final VF is (1 - 0) mod 256 = 1, not
the 8-bit arithmetic result (128 - 0) mod 256 = 128.  Second, in legacy
mode 8F0E copies Vy into Vx before shifting, so on a legacy machine
with VF = 128, V0 = 0 the final VF is 0, not twice the pre-instruction
high bit of VF (which would be 2). -/
theorem c10_counterexample :
    (Core.sub c10core 0xF05).v_reg 0xF ≠ (c10core.v_reg 0xF + 256 - c10core.v_reg 0) % 256 ∧
    (Core.left_shift c10core 0xF0E).v_reg 0xF ≠ 2 * (c10core.v_reg 0xF / 128) := by
  decide

/-- Claim C10 (amended, for y ≠ 0xF and 8-bit register contents): with
destination x = 0xF the result write lands after the flag write, so the
final VF is: for 8xF4 the sum (VF + Vy) mod 256; for 8xF5 the value
(f + 256 - Vy) mod 256 and for 8xF7 the value (Vy + 256 - f) mod 256,
where f ∈ {0,1} is the just-written borrow flag (the flag write is
re-read as an operand, so the final VF is not the plain 8-bit
difference); for 8xF6 always 0 (the extracted low bit of the shifted
source, shifted right once); for 8xFE twice the high bit of the shifted
source, which is the pre-instruction VF in non-legacy mode but Vy in
legacy mode. -/
theorem c10_flag_result_interleave (s : Core) (rest4 rest5 rest7 rest6 restE y : Nat)
    (h4x : (rest4 &&& 0xF00) >>> 8 = 15) (h4y : (rest4 &&& 0x0F0) >>> 4 = y)
    (h5x : (rest5 &&& 0xF00) >>> 8 = 15) (h5y : (rest5 &&& 0x0F0) >>> 4 = y)
    (h5n : rest5 &&& 0xF = 5)
    (h7x : (rest7 &&& 0xF00) >>> 8 = 15) (h7y : (rest7 &&& 0x0F0) >>> 4 = y)
    (h7n : rest7 &&& 0xF = 7)
    (h6x : (rest6 &&& 0xF00) >>> 8 = 15) (h6y : (rest6 &&& 0x0F0) >>> 4 = y)
    (hEx : (restE &&& 0xF00) >>> 8 = 15) (hEy : (restE &&& 0x0F0) >>> 4 = y)
    (hy15 : y ≠ 15) (hf : s.v_reg 15 < 256) (hb : s.v_reg y < 256) :
    (Core.add s rest4).v_reg 0xF = (s.v_reg 15 + s.v_reg y) % 256 ∧
    (Core.sub s rest5).v_reg 0xF =
      ((if s.v_reg y ≤ s.v_reg 15 then 1 else 0) + 256 - s.v_reg y) % 256 ∧
    (Core.sub s rest7).v_reg 0xF =
      (s.v_reg y + 256 - (if s.v_reg 15 ≤ s.v_reg y then 1 else 0)) % 256 ∧
    (Core.right_shift s rest6).v_reg 0xF = 0 ∧
    (Core.left_shift s restE).v_reg 0xF =
      2 * ((if s.legacy then s.v_reg y else s.v_reg 15) / 128) := by
  refine ⟨?_, ?_, ?_, ?_, ?_⟩
  · simp only [Core.add]
    rw [h4x, h4y]
    simp [mask_nn]
  · simp only [Core.sub]
    rw [h5x, h5y, h5n]
    norm_num
    have e1 : (if (5 : Nat) = 5 then (15 : Nat) else y) = 15 := rfl
    have e2 : (if (5 : Nat) = 5 then y else (15 : Nat)) = y := rfl
    rw [e1, e2, Function.update_same, Function.update_noteq hy15]
  · simp only [Core.sub]
    rw [h7x, h7y, h7n]
    norm_num
    have e1 : (if (7 : Nat) = 5 then (15 : Nat) else y) = y := rfl
    have e2 : (if (7 : Nat) = 5 then y else (15 : Nat)) = 15 := rfl
    rw [e1, e2, Function.update_same, Function.update_noteq hy15]
  · cases hleg : s.legacy
    · simp only [Core.right_shift, hleg]
      rw [h6x]
      simp [Nat.and_one_is_mod, shiftRight_one]
    · simp only [Core.right_shift, hleg]
      rw [h6x, h6y]
      simp [Nat.and_one_is_mod, shiftRight_one]
  · cases hleg : s.legacy
    · simp only [Core.left_shift, hleg]
      rw [hEx]
      simp [shiftRight_seven, shiftLeft_one]
      omega
    · simp only [Core.left_shift, hleg]
      rw [hEx, hEy]
      simp [shiftRight_seven, shiftLeft_one]
      omega

/-- Claim C10 witness at y = 0, VF = 200, V0 = 7 on a non-legacy
machine: 8F04 leaves VF = 207. -/
theorem c10_flag_result_interleave_witness :
    (Core.add (mkTestCore false fun i => if i = 15 then 200 else 7) 0xF04).v_reg 0xF = 207 := by
  have h := c10_flag_result_interleave
    (mkTestCore false fun i => if i = 15 then 200 else 7)
    0xF04 0xF05 0xF07 0xF06 0xF0E 0
    (by decide) (by decide) (by decide) (by decide) (by decide) (by decide)
    (by decide) (by decide) (by decide) (by decide) (by decide)
    (by decide) (by decide) (by decide) (by decide)
  rw [h.1]
  decide

/-- Claim C2, counterexample: the machine constructed from the two-byte
ROM [0x12, 0x01] is reachable, its first fetched word is the jump
0x1201, and one cycle later the program counter is the odd address
0x201 — so the evenness invariant fails on a reachable state
immediately after a jump. -/
theorem c2_counterexample :
    Reachable (Core.new [0x12, 0x01] false) ∧
    ((Core.new [0x12, 0x01] false).ram 0x200) <<< 8 +
      (Core.new [0x12, 0x01] false).ram (0x200 + 1) = 0x1201 ∧
    Option.map (fun t => t.pc % 2) (Core.cycle (Core.new [0x12, 0x01] false) [] 0) =
      some 1 :=
  ⟨Reachable.base _ _, by decide, by decide⟩

/-- Claim C2 (amended): after a jump or call the program counter equals
the 12-bit target nnn verbatim, and after a return it equals the most
recently pushed stack entry; the counter is even exactly when that
target value is even (the code does not itself force evenness). -/
theorem c2_pc_after_transfer (s : Core) (rest a : Nat) (l : List Nat)
    (hstack : s.stack = a :: l) :
    (Core.jump s rest).pc = rest ∧
    (Core.call s rest).pc = rest ∧
    (Core.call s rest).stack = s.pc :: s.stack ∧
    Core.ret_subroutine s = some { s with pc := a, stack := l } ∧
    ((Core.jump s rest).pc % 2 = 0 ↔ rest % 2 = 0) := by
  refine ⟨rfl, rfl, rfl, ?_, Iff.rfl⟩
  simp [Core.ret_subroutine, hstack]

/-- Claim C2 witness with stack [0x246] and jump target 0x333. -/
theorem c2_pc_after_transfer_witness :
    (Core.jump { mkTestCore false (fun _ => 0) with stack := [0x246] } 0x333).pc = 0x333 := by
  have h := c2_pc_after_transfer
    { mkTestCore false (fun _ => 0) with stack := [0x246] } 0x333 0x246 [] (by decide)
  exact h.1

/-- Claim C8: a return (00EE) with an empty call stack is the process
abort (the `expect` panic, modelled as `none`); with a non-empty stack
it pops the most recently pushed return address into the program
counter (the popped entry is the head of the modelled stack, which
`call` conses), as the round trip `ret_subroutine (call s nnn) = some s`
also exhibits. -/
theorem c8_ret_underflow (s : Core) (keys : List Nat) (rnd : Nat)
    (hhi : s.ram s.pc = 0x00) (hlo : s.ram (s.pc + 1) = 0xEE) :
    (s.stack = [] → Core.cycle s keys rnd = none) ∧
    (∀ a l, s.stack = a :: l → Core.cycle s keys rnd = some { s with pc := a, stack := l }) ∧
    (∀ nnn, Core.ret_subroutine (Core.call s nnn) = some s) := by
  have e1 : ((238 : Nat) &&& 61440) >>> 12 = 0 := by decide
  have e2 : (238 : Nat) &&& 4095 = 238 := by decide
  refine ⟨?_, ?_, ?_⟩
  · intro hempty
    simp [Core.cycle, Core.fetch, Core.decode_and_exec, hhi, hlo, Core.ret_subroutine, hempty,
      e1, e2]
  · intro a l hcons
    simp [Core.cycle, Core.fetch, Core.decode_and_exec, hhi, hlo, Core.ret_subroutine, hcons,
      e1, e2]
  · intro nnn
    simp [Core.call, Core.ret_subroutine]

/-- Claim C8 witness: ROM [0x00, 0xEE] (immediate return) aborts on the
fresh machine, whose stack is empty. -/
theorem c8_ret_underflow_witness :
    Core.cycle (Core.new [0x00, 0xEE] false) [] 0 = none := by
  have h := c8_ret_underflow (Core.new [0x00, 0xEE] false) [] 0 (by decide) (by decide)
  exact h.1 rfl

/-- Claim C9: executing Fx0A with no key pressed rolls the program
counter back by 2, exactly cancelling the fetch increment, and changes
nothing else (the cycle returns the state unchanged); with a key
pressed, Vx receives the first reported key and the counter keeps its
normal post-fetch value. -/
theorem c9_await_key (s : Core) (keys : List Nat) (rnd x : Nat)
    (hx : x < 16) (hhi : s.ram s.pc = 0xF0 + x) (hlo : s.ram (s.pc + 1) = 0x0A)
    (hpc : s.pc < 65534) :
    (keys = [] → Core.cycle s keys rnd = some s) ∧
    (∀ k ks, keys = k :: ks →
      Core.cycle s keys rnd =
        some { s with pc := s.pc + 2, v_reg := Function.update s.v_reg x k }) := by
  have hw : (s.ram s.pc) <<< 8 + s.ram (s.pc + 1) = (240 + x) * 256 + 10 := by
    rw [hhi, hlo, Nat.shiftLeft_eq]
  have hnib : (((240 + x) * 256 + 10) &&& 0xF000) >>> 12 = 15 := by
    rw [mask_nib]; omega
  have hrest : ((240 + x) * 256 + 10) &&& 0x0FFF = 256 * x + 10 := by
    rw [mask_rest]; omega
  have hsuf : (256 * x + 10) &&& 0xFF = 10 := by
    rw [mask_nn]; omega
  have hxx : ((256 * x + 10) &&& 0xF00) >>> 8 = x := by
    rw [mask_x]; omega
  have hpc2 : (s.pc + 2) % 65536 = s.pc + 2 := Nat.mod_eq_of_lt (by omega)
  constructor
  · intro hk
    subst hk
    simp only [Core.cycle, Core.fetch, hw, Core.decode_and_exec, hnib, hrest, hsuf, hxx,
      Core.await_key]
    norm_num [hpc2]
    have hroll : (s.pc + 2 + 65534) % 65536 = s.pc := by omega
    rw [hroll]
  · intro k ks hk
    subst hk
    simp only [Core.cycle, Core.fetch, hw, Core.decode_and_exec, hnib, hrest, hsuf, hxx,
      Core.await_key]
    norm_num [hpc2]

/-- Claim C9 witness: Fx0A at 0x200 with x = 3; no key leaves the state
unchanged. -/
theorem c9_await_key_witness :
    Core.cycle
      { mkTestCore false (fun _ => 0) with
        ram := fun i => if i = 0x200 then 0xF3 else if i = 0x201 then 0x0A else 0 }
      [] 0 =
    some { mkTestCore false (fun _ => 0) with
      ram := fun i => if i = 0x200 then 0xF3 else if i = 0x201 then 0x0A else 0 } := by
  have h := c9_await_key
    { mkTestCore false (fun _ => 0) with
      ram := fun i => if i = 0x200 then 0xF3 else if i = 0x201 then 0x0A else 0 }
    [] 0 3 (by decide) (by decide) (by decide) (by decide)
  exact h.1 rfl

/-- Any instruction word outside the specification's opcode table whose
top nibble is not 5 or 9 leaves the machine unchanged when decoded:
the unmatched arms only log, family E falls through both key tests,
and 0000 dispatches to the no-op handler. -/
theorem decode_invalid (s : Core) (w : Nat) (keys : List Nat) (rnd : Nat)
    (hva : validOpcode w = false) (hwlt : w < 65536)
    (h5 : w / 4096 ≠ 5) (h9 : w / 4096 ≠ 9) :
    Core.decode_and_exec s w keys rnd = some s := by
  have hnib : (w &&& 0xF000) >>> 12 = w / 4096 := by rw [mask_nib]; omega
  have hlow4 : w % 4096 % 16 = w % 16 := Nat.mod_mod_of_dvd w (by norm_num)
  have hlow8 : w % 4096 % 256 = w % 256 := Nat.mod_mod_of_dvd w (by norm_num)
  simp only [validOpcode, hnib, mask_rest, mask_n, mask_nn, hlow4, hlow8] at hva
  simp only [Core.decode_and_exec, hnib, mask_rest, mask_n, mask_nn, hlow4, hlow8]
  simp only [Bool.or_eq_false_iff, Bool.and_eq_false_imp, beq_eq_false_iff_ne, ne_eq,
    beq_iff_eq] at hva
  obtain ⟨⟨⟨⟨⟨⟨⟨⟨⟨⟨⟨⟨⟨⟨⟨⟨h224, h238⟩, hw1⟩, hw2⟩, hw3⟩, hw4n⟩, h5i⟩, h9i⟩, hw6⟩,
    hw7⟩, h8i⟩, hwA⟩, hwB⟩, hwC⟩, hwD⟩, hE14⟩, hF15⟩ := hva
  have hdisj : w / 4096 = 0 ∨ w / 4096 = 1 ∨ w / 4096 = 2 ∨ w / 4096 = 3 ∨
      w / 4096 = 4 ∨ w / 4096 = 5 ∨ w / 4096 = 6 ∨ w / 4096 = 7 ∨ w / 4096 = 8 ∨
      w / 4096 = 9 ∨ w / 4096 = 10 ∨ w / 4096 = 11 ∨ w / 4096 = 12 ∨ w / 4096 = 13 ∨
      w / 4096 = 14 ∨ w / 4096 = 15 := by omega
  rcases hdisj with h|h|h|h|h|h|h|h|h|h|h|h|h|h|h|h
  · have hmod : w % 4096 = w := by omega
    by_cases h0 : w = 0
    · simp [h, h0, Core.noop]
    · simp [h, hmod, h0, h224, h238, Core.noop]
  · exact absurd h hw1
  · exact absurd h hw2
  · exact absurd h hw3
  · exact absurd h hw4n
  · exact absurd h h5
  · exact absurd h hw6
  · exact absurd h hw7
  · obtain ⟨⟨⟨⟨⟨⟨⟨⟨k0, k1⟩, k2⟩, k3⟩, k4⟩, k5⟩, k6⟩, k7⟩, k14⟩ := h8i h
    simp [h, k0, k1, k2, k3, k4, k5, k6, k7, k14]
  · exact absurd h h9
  · exact absurd h hwA
  · exact absurd h hwB
  · exact absurd h hwC
  · exact absurd h hwD
  · obtain ⟨e9E, eA1⟩ := hE14 h
    simp [h, Core.key_skip, mask_nn, hlow8, e9E, eA1]
  · obtain ⟨⟨⟨⟨⟨⟨⟨⟨f07, f0A⟩, f15⟩, f18⟩, f1E⟩, f29⟩, f33⟩, f55⟩, f65⟩ := hF15 h
    simp [h, f07, f0A, f15, f18, f1E, f29, f33, f55, f65]

/-- Claim C7, counterexample: 0x5011 matches no listed opcode (the
table has only 5xy0), yet the code dispatches the whole 5 family to
skip-eq: on a fresh machine with V0 = V1 = 0 the cycle advances the
program counter by 4, not 2, so the unmatched word is not a no-op. -/
theorem c7_counterexample :
    validOpcode 0x5011 = false ∧
    ((Core.new [0x50, 0x11] false).ram 0x200) <<< 8 +
      (Core.new [0x50, 0x11] false).ram (0x200 + 1) = 0x5011 ∧
    Option.map (fun t => t.pc) (Core.cycle (Core.new [0x50, 0x11] false) [] 0) ≠
      some (((Core.new [0x50, 0x11] false).pc + 2) % 65536) ∧
    Option.map (fun t => t.pc) (Core.cycle (Core.new [0x50, 0x11] false) [] 0) =
      some 0x204 :=
  ⟨by decide, by decide, by decide, by decide⟩

/-- Claim C7 (amended: excluding families 5 and 9, whose non-zero low
nibbles are executed as the register skips despite being unlisted):
executing one cycle on any other instruction word that matches none of
the listed opcodes — including every 0nnn word other than 00E0/00EE —
changes nothing but the program counter, which advances by exactly 2
from the fetch. -/
theorem c7_invalid_noop (s : Core) (keys : List Nat) (rnd : Nat)
    (hhi : s.ram s.pc < 256) (hlo : s.ram (s.pc + 1) < 256)
    (hva : validOpcode ((s.ram s.pc) <<< 8 + s.ram (s.pc + 1)) = false)
    (h5 : ((s.ram s.pc) <<< 8 + s.ram (s.pc + 1)) / 4096 ≠ 5)
    (h9 : ((s.ram s.pc) <<< 8 + s.ram (s.pc + 1)) / 4096 ≠ 9) :
    Core.cycle s keys rnd = some { s with pc := (s.pc + 2) % 65536 } := by
  have h28 : (2 : Nat) ^ 8 = 256 := by norm_num
  have hwlt : (s.ram s.pc) <<< 8 + s.ram (s.pc + 1) < 65536 := by
    rw [Nat.shiftLeft_eq, h28]; omega
  exact decode_invalid { s with pc := (s.pc + 2) % 65536 }
    ((s.ram s.pc) <<< 8 + s.ram (s.pc + 1)) keys rnd hva hwlt h5 h9

/-- Claim C7 witness: the unmatched family-0 word 0x0123 consumes one
cycle and only advances the program counter. -/
theorem c7_invalid_noop_witness :
    Core.cycle (Core.new [0x01, 0x23] false) [] 0 =
      some { Core.new [0x01, 0x23] false with
        pc := ((Core.new [0x01, 0x23] false).pc + 2) % 65536 } :=
  c7_invalid_noop (Core.new [0x01, 0x23] false) [] 0 (by decide) (by decide)
    (by decide) (by decide) (by decide)

/-! ## Claim-side transcription of the draw rule (spec §4.4)

`hitCols`/`hitRows` say which framebuffer indices carry a sprite-on
pixel: row `r < n` is drawn only while `initY + r < 32` (no vertical
wrap), column `c < 8` only while `initX + c < 64` (no horizontal wrap),
the bit for column `c` is the (7-c)-th bit of the row byte (most
significant bit first, i.e. leftmost pixel), and the target index is
`64 * (initY + r) + (initX + c)`.  `collideCols`/`collideRows` say
whether some drawn sprite-on pixel lands on an already-on framebuffer
pixel. -/

def hitCols (rowByte initX rowPos : Nat) : Nat → Nat → Nat → Bool
  | 0, _, _ => false
  | fuel + 1, c, idx =>
    (decide (initX + c < 64) && (idx == 64 * rowPos + (initX + c)) &&
      rowByte.testBit (7 - c)) ||
    hitCols rowByte initX rowPos fuel (c + 1) idx

def collideCols (rowByte initX rowPos : Nat) (disp : Nat → Bool) : Nat → Nat → Bool
  | 0, _ => false
  | fuel + 1, c =>
    (decide (initX + c < 64) && rowByte.testBit (7 - c) &&
      disp (64 * rowPos + (initX + c))) ||
    collideCols rowByte initX rowPos disp fuel (c + 1)

def hitRows (ram : Nat → Nat) (ptr initX initY : Nat) : Nat → Nat → Nat → Bool
  | 0, _, _ => false
  | fuel + 1, r, idx =>
    (decide (initY + r < 32) && hitCols (ram (ptr + r)) initX (initY + r) 8 0 idx) ||
    hitRows ram ptr initX initY fuel (r + 1) idx

def collideRows (ram : Nat → Nat) (ptr initX initY : Nat) (disp : Nat → Bool) :
    Nat → Nat → Bool
  | 0, _ => false
  | fuel + 1, r =>
    (decide (initY + r < 32) && collideCols (ram (ptr + r)) initX (initY + r) disp 8 0) ||
    collideRows ram ptr initX initY disp fuel (r + 1)

/-- Whether the draw `Dxyn` encoded by `rest` paints a sprite-on pixel
at framebuffer index `idx`, per the specification's draw rule. -/
def drawHit (s : Core) (rest idx : Nat) : Bool :=
  hitRows s.ram s.i_reg (s.v_reg ((rest &&& 0xF00) >>> 8) % 64)
    (s.v_reg ((rest &&& 0x0F0) >>> 4) % 32) (rest &&& 0x00F) 0 idx

/-- Whether the draw `Dxyn` encoded by `rest` paints some sprite-on
pixel onto an already-on framebuffer pixel (the collision condition). -/
def drawCollide (s : Core) (rest : Nat) : Bool :=
  collideRows s.ram s.i_reg (s.v_reg ((rest &&& 0xF00) >>> 8) % 64)
    (s.v_reg ((rest &&& 0x0F0) >>> 4) % 32) s.display (rest &&& 0x00F) 0

theorem and_two_pow_bne (b j : Nat) : (b &&& 2 ^ j != 0) = b.testBit j := by
  cases h : b.testBit j
  · have hz : b &&& 2 ^ j = 0 := by
      apply Nat.zero_of_testBit_eq_false
      intro i
      rw [Nat.testBit_and, Nat.testBit_two_pow]
      by_cases hij : j = i
      · subst hij; simp [h]
      · simp [hij]
    simp [hz]
  · have ht : (b &&& 2 ^ j).testBit j = true := by
      rw [Nat.testBit_and, h, Nat.testBit_two_pow]
      simp
    have hne : b &&& 2 ^ j ≠ 0 := by
      intro h0
      rw [h0] at ht
      simp at ht
    simp [hne]

/-- The source's bit mask `0b10000000 >> c` extracts exactly the
(7-c)-th bit: most significant bit first. -/
theorem spritePixel_testBit (b c : Nat) (hc : c < 8) :
    spritePixel b c = b.testBit (7 - c) := by
  have h : (128 : Nat) >>> c = 2 ^ (7 - c) := by interval_cases c <;> decide
  simp only [spritePixel]
  rw [h, and_two_pow_bne]

theorem hitCols_ge (rowByte initX rowPos : Nat) (fuel : Nat) :
    ∀ c idx, 64 ≤ initX + c → hitCols rowByte initX rowPos fuel c idx = false := by
  induction fuel with
  | zero => intro c idx h; rfl
  | succ fuel ih =>
    intro c idx h
    simp only [hitCols]
    rw [ih (c + 1) idx (by omega)]
    simp [show ¬(initX + c < 64) from by omega]

theorem collideCols_ge (rowByte initX rowPos : Nat) (disp : Nat → Bool) (fuel : Nat) :
    ∀ c, 64 ≤ initX + c → collideCols rowByte initX rowPos disp fuel c = false := by
  induction fuel with
  | zero => intro c h; rfl
  | succ fuel ih =>
    intro c h
    simp only [collideCols]
    rw [ih (c + 1) (by omega)]
    simp [show ¬(initX + c < 64) from by omega]

theorem hitRows_ge (ram : Nat → Nat) (ptr initX initY : Nat) (fuel : Nat) :
    ∀ r idx, 32 ≤ initY + r → hitRows ram ptr initX initY fuel r idx = false := by
  induction fuel with
  | zero => intro r idx h; rfl
  | succ fuel ih =>
    intro r idx h
    simp only [hitRows]
    rw [ih (r + 1) idx (by omega)]
    simp [show ¬(initY + r < 32) from by omega]

theorem collideRows_ge (ram : Nat → Nat) (ptr initX initY : Nat) (disp : Nat → Bool)
    (fuel : Nat) :
    ∀ r, 32 ≤ initY + r → collideRows ram ptr initX initY disp fuel r = false := by
  induction fuel with
  | zero => intro r h; rfl
  | succ fuel ih =>
    intro r h
    simp only [collideRows]
    rw [ih (r + 1) (by omega)]
    simp [show ¬(initY + r < 32) from by omega]

theorem hitCols_div (rowByte initX rowPos : Nat) (fuel : Nat) :
    ∀ c idx, hitCols rowByte initX rowPos fuel c idx = true → idx / 64 = rowPos := by
  induction fuel with
  | zero => intro c idx h; simp [hitCols] at h
  | succ fuel ih =>
    intro c idx h
    simp only [hitCols, Bool.or_eq_true, Bool.and_eq_true, decide_eq_true_eq,
      beq_iff_eq] at h
    rcases h with ⟨⟨hlt, hidx⟩, _⟩ | h
    · subst hidx; omega
    · exact ih (c + 1) idx h

theorem hitRows_div (ram : Nat → Nat) (ptr initX initY : Nat) (fuel : Nat) :
    ∀ r idx, hitRows ram ptr initX initY fuel r idx = true → initY + r ≤ idx / 64 := by
  induction fuel with
  | zero => intro r idx h; simp [hitRows] at h
  | succ fuel ih =>
    intro r idx h
    simp only [hitRows, Bool.or_eq_true, Bool.and_eq_true, decide_eq_true_eq] at h
    rcases h with ⟨h32, hcol⟩ | h
    · have := hitCols_div (ram (ptr + r)) initX (initY + r) 8 0 idx hcol
      omega
    · have := ih (r + 1) idx h
      omega

theorem hitCols_ne (rowByte initX rowPos : Nat) (fuel : Nat) :
    ∀ c c0, c0 < c →
      hitCols rowByte initX rowPos fuel c (64 * rowPos + (initX + c0)) = false := by
  induction fuel with
  | zero => intro c c0 h; rfl
  | succ fuel ih =>
    intro c c0 h
    simp only [hitCols]
    rw [ih (c + 1) c0 (by omega)]
    have hne : 64 * rowPos + (initX + c0) ≠ 64 * rowPos + (initX + c) := by omega
    simp [hne]

theorem collideCols_update (rowByte initX rowPos : Nat) (fuel : Nat) :
    ∀ c c0 (disp : Nat → Bool) (b : Bool), c0 < c →
      collideCols rowByte initX rowPos
        (Function.update disp (64 * rowPos + (initX + c0)) b) fuel c =
      collideCols rowByte initX rowPos disp fuel c := by
  induction fuel with
  | zero => intro c c0 disp b h; rfl
  | succ fuel ih =>
    intro c c0 disp b h
    simp only [collideCols]
    rw [ih (c + 1) c0 disp b (by omega),
      Function.update_noteq (by omega : 64 * rowPos + (initX + c) ≠ 64 * rowPos + (initX + c0))]

theorem collideCols_congr (rowByte initX rowPos : Nat) (fuel : Nat) :
    ∀ c (d1 d2 : Nat → Bool), (∀ idx, idx / 64 = rowPos → d1 idx = d2 idx) →
      collideCols rowByte initX rowPos d1 fuel c =
        collideCols rowByte initX rowPos d2 fuel c := by
  induction fuel with
  | zero => intro c d1 d2 h; rfl
  | succ fuel ih =>
    intro c d1 d2 hag
    simp only [collideCols]
    rw [ih (c + 1) d1 d2 hag]
    by_cases hlt : initX + c < 64
    · rw [hag (64 * rowPos + (initX + c)) (by omega)]
    · simp [hlt]

theorem drawCols_display (rowByte initX rowPos : Nat) (fuel : Nat) :
    ∀ c (disp : Nat → Bool) (vf idx : Nat), fuel + c ≤ 8 →
      (drawCols rowByte initX rowPos fuel c disp vf).1 idx =
        (if hitCols rowByte initX rowPos fuel c idx then !(disp idx) else disp idx) := by
  induction fuel with
  | zero => intro c disp vf idx h; simp [drawCols, hitCols]
  | succ fuel ih =>
    intro c disp vf idx hfc
    by_cases hbreak : 64 ≤ initX + c
    · simp only [drawCols, if_pos hbreak]
      rw [hitCols_ge rowByte initX rowPos (fuel + 1) c idx hbreak]
      simp
    · have hc8 : c < 8 := by omega
      have hpx := spritePixel_testBit rowByte c hc8
      simp only [drawCols, if_neg hbreak]
      by_cases hp : spritePixel rowByte c = true
      · by_cases hd : disp (64 * rowPos + (initX + c)) = true
        · rw [if_pos (by simp [hp, hd])]
          rw [ih (c + 1) (Function.update disp (64 * rowPos + (initX + c)) false) 1 idx
            (by omega)]
          by_cases hidx : idx = 64 * rowPos + (initX + c)
          · subst hidx
            rw [hitCols_ne rowByte initX rowPos fuel (c + 1) c (by omega)]
            have hhit : hitCols rowByte initX rowPos (fuel + 1) c
                (64 * rowPos + (initX + c)) = true := by
              simp [hitCols, show initX + c < 64 from by omega, ← hpx, hp]
            rw [hhit]
            simp [Function.update_same, hd]
          · rw [Function.update_noteq hidx]
            have hhead : hitCols rowByte initX rowPos (fuel + 1) c idx =
                hitCols rowByte initX rowPos fuel (c + 1) idx := by
              simp [hitCols, hidx]
            rw [hhead]
        · rw [if_neg (by simp [hd]), if_pos (by simp [hp, hd])]
          rw [ih (c + 1) (Function.update disp (64 * rowPos + (initX + c)) true) vf idx
            (by omega)]
          by_cases hidx : idx = 64 * rowPos + (initX + c)
          · subst hidx
            rw [hitCols_ne rowByte initX rowPos fuel (c + 1) c (by omega)]
            have hhit : hitCols rowByte initX rowPos (fuel + 1) c
                (64 * rowPos + (initX + c)) = true := by
              simp [hitCols, show initX + c < 64 from by omega, ← hpx, hp]
            rw [hhit]
            simp [Function.update_same, hd]
          · rw [Function.update_noteq hidx]
            have hhead : hitCols rowByte initX rowPos (fuel + 1) c idx =
                hitCols rowByte initX rowPos fuel (c + 1) idx := by
              simp [hitCols, hidx]
            rw [hhead]
      · have hp' : spritePixel rowByte c = false := by
          cases hcc : spritePixel rowByte c
          · rfl
          · exact absurd hcc hp
        rw [if_neg (by simp [hp']), if_neg (by simp [hp'])]
        rw [ih (c + 1) disp vf idx (by omega)]
        have hhead : hitCols rowByte initX rowPos (fuel + 1) c idx =
            hitCols rowByte initX rowPos fuel (c + 1) idx := by
          simp [hitCols, ← hpx, hp']
        rw [hhead]

theorem drawCols_vf (rowByte initX rowPos : Nat) (fuel : Nat) :
    ∀ c (disp : Nat → Bool) (vf : Nat), fuel + c ≤ 8 →
      (drawCols rowByte initX rowPos fuel c disp vf).2 =
        (if collideCols rowByte initX rowPos disp fuel c then 1 else vf) := by
  induction fuel with
  | zero => intro c disp vf h; simp [drawCols, collideCols]
  | succ fuel ih =>
    intro c disp vf hfc
    by_cases hbreak : 64 ≤ initX + c
    · simp only [drawCols, if_pos hbreak]
      rw [collideCols_ge rowByte initX rowPos disp (fuel + 1) c hbreak]
      simp
    · have hc8 : c < 8 := by omega
      have hpx := spritePixel_testBit rowByte c hc8
      simp only [drawCols, if_neg hbreak]
      by_cases hp : spritePixel rowByte c = true
      · by_cases hd : disp (64 * rowPos + (initX + c)) = true
        · rw [if_pos (by simp [hp, hd])]
          rw [ih (c + 1) (Function.update disp (64 * rowPos + (initX + c)) false) 1
            (by omega)]
          have hcol : collideCols rowByte initX rowPos disp (fuel + 1) c = true := by
            simp [collideCols, show initX + c < 64 from by omega, ← hpx, hp, hd]
          rw [hcol]
          cases collideCols rowByte initX rowPos
            (Function.update disp (64 * rowPos + (initX + c)) false) fuel (c + 1) <;> simp
        · rw [if_neg (by simp [hd]), if_pos (by simp [hp, hd])]
          rw [ih (c + 1) (Function.update disp (64 * rowPos + (initX + c)) true) vf
            (by omega)]
          rw [collideCols_update rowByte initX rowPos fuel (c + 1) c disp true (by omega)]
          have hstep : collideCols rowByte initX rowPos disp (fuel + 1) c =
              collideCols rowByte initX rowPos disp fuel (c + 1) := by
            simp [collideCols, hd]
          rw [hstep]
      · have hp' : spritePixel rowByte c = false := by
          cases hcc : spritePixel rowByte c
          · rfl
          · exact absurd hcc hp
        rw [if_neg (by simp [hp']), if_neg (by simp [hp'])]
        rw [ih (c + 1) disp vf (by omega)]
        have hstep : collideCols rowByte initX rowPos disp (fuel + 1) c =
            collideCols rowByte initX rowPos disp fuel (c + 1) := by
          simp [collideCols, ← hpx, hp']
        rw [hstep]

theorem collideRows_congr (ram : Nat → Nat) (ptr initX initY : Nat) (fuel : Nat) :
    ∀ r (d1 d2 : Nat → Bool), (∀ idx, initY + r ≤ idx / 64 → d1 idx = d2 idx) →
      collideRows ram ptr initX initY d1 fuel r =
        collideRows ram ptr initX initY d2 fuel r := by
  induction fuel with
  | zero => intro r d1 d2 h; rfl
  | succ fuel ih =>
    intro r d1 d2 hag
    simp only [collideRows]
    rw [ih (r + 1) d1 d2 (fun idx h => hag idx (by omega))]
    rw [collideCols_congr (ram (ptr + r)) initX (initY + r) 8 0 d1 d2
      (fun idx h => hag idx (by omega))]

theorem drawRows_display (ram : Nat → Nat) (ptr initX initY : Nat) (fuel : Nat) :
    ∀ r (disp : Nat → Bool) (vf idx : Nat),
      (drawRows ram ptr initX initY fuel r disp vf).1 idx =
        (if hitRows ram ptr initX initY fuel r idx then !(disp idx) else disp idx) := by
  induction fuel with
  | zero => intro r disp vf idx; simp [drawRows, hitRows]
  | succ fuel ih =>
    intro r disp vf idx
    by_cases hbreak : 32 ≤ initY + r
    · simp only [drawRows, if_pos hbreak]
      rw [hitRows_ge ram ptr initX initY (fuel + 1) r idx hbreak]
      simp
    · simp only [drawRows, if_neg hbreak]
      rw [ih (r + 1) _ _ idx]
      rw [drawCols_display (ram (ptr + r)) initX (initY + r) 8 0 disp vf idx (by omega)]
      cases hh : hitCols (ram (ptr + r)) initX (initY + r) 8 0 idx
      · simp [hitRows, hh]
      · have hdiv := hitCols_div (ram (ptr + r)) initX (initY + r) 8 0 idx hh
        have hrows : hitRows ram ptr initX initY fuel (r + 1) idx = false := by
          cases hr2 : hitRows ram ptr initX initY fuel (r + 1) idx
          · rfl
          · exact absurd (hitRows_div ram ptr initX initY fuel (r + 1) idx hr2) (by omega)
        simp [hitRows, hh, hrows, show initY + r < 32 from by omega]

theorem drawRows_vf (ram : Nat → Nat) (ptr initX initY : Nat) (fuel : Nat) :
    ∀ r (disp : Nat → Bool) (vf : Nat),
      (drawRows ram ptr initX initY fuel r disp vf).2 =
        (if collideRows ram ptr initX initY disp fuel r then 1 else vf) := by
  induction fuel with
  | zero => intro r disp vf; simp [drawRows, collideRows]
  | succ fuel ih =>
    intro r disp vf
    by_cases hbreak : 32 ≤ initY + r
    · simp only [drawRows, if_pos hbreak]
      rw [collideRows_ge ram ptr initX initY disp (fuel + 1) r hbreak]
      simp
    · simp only [drawRows, if_neg hbreak]
      rw [ih (r + 1) _ _]
      rw [drawCols_vf (ram (ptr + r)) initX (initY + r) 8 0 disp vf (by omega)]
      have hcong : collideRows ram ptr initX initY
          (drawCols (ram (ptr + r)) initX (initY + r) 8 0 disp vf).1 fuel (r + 1) =
          collideRows ram ptr initX initY disp fuel (r + 1) := by
        apply collideRows_congr
        intro idx hge
        rw [drawCols_display (ram (ptr + r)) initX (initY + r) 8 0 disp vf idx (by omega)]
        have hcc : hitCols (ram (ptr + r)) initX (initY + r) 8 0 idx = false := by
          cases hcc : hitCols (ram (ptr + r)) initX (initY + r) 8 0 idx
          · rfl
          · exact absurd (hitCols_div (ram (ptr + r)) initX (initY + r) 8 0 idx hcc)
              (by omega)
        rw [hcc]
        simp
      rw [hcong]
      simp only [collideRows]
      rcases Bool.eq_false_or_eq_true
          (collideCols (ram (ptr + r)) initX (initY + r) disp 8 0) with h1 | h1 <;>
        rcases Bool.eq_false_or_eq_true
            (collideRows ram ptr initX initY disp fuel (r + 1)) with h2 | h2 <;>
          simp [h1, h2, show initY + r < 32 from by omega]

theorem collideCols_of_hit (rowByte initX rowPos : Nat) (fuel : Nat) :
    ∀ c idx (disp : Nat → Bool),
      hitCols rowByte initX rowPos fuel c idx = true → disp idx = true →
      collideCols rowByte initX rowPos disp fuel c = true := by
  induction fuel with
  | zero => intro c idx disp h; simp [hitCols] at h
  | succ fuel ih =>
    intro c idx disp h hd
    simp only [hitCols, Bool.or_eq_true] at h
    simp only [collideCols, Bool.or_eq_true]
    rcases h with h | h
    · left
      simp only [Bool.and_eq_true, decide_eq_true_eq, beq_iff_eq] at h
      obtain ⟨⟨h64, hidx⟩, hbit⟩ := h
      simp only [Bool.and_eq_true, decide_eq_true_eq]
      exact ⟨⟨h64, hbit⟩, by rw [← hidx]; exact hd⟩
    · right
      exact ih (c + 1) idx disp h hd

theorem collideRows_of_hit (ram : Nat → Nat) (ptr initX initY : Nat) (fuel : Nat) :
    ∀ r idx (disp : Nat → Bool),
      hitRows ram ptr initX initY fuel r idx = true → disp idx = true →
      collideRows ram ptr initX initY disp fuel r = true := by
  induction fuel with
  | zero => intro r idx disp h; simp [hitRows] at h
  | succ fuel ih =>
    intro r idx disp h hd
    simp only [hitRows, Bool.or_eq_true] at h
    simp only [collideRows, Bool.or_eq_true]
    rcases h with h | h
    · left
      simp only [Bool.and_eq_true, decide_eq_true_eq] at h ⊢
      exact ⟨h.1, collideCols_of_hit (ram (ptr + r)) initX (initY + r) 8 0 idx disp h.2 hd⟩
    · right
      exact ih (r + 1) idx disp h hd

theorem draw_sprite_display (s : Core) (rest idx : Nat) :
    (Core.draw_sprite s rest).display idx =
      (if drawHit s rest idx then !(s.display idx) else s.display idx) := by
  simp only [Core.draw_sprite, drawHit]
  exact drawRows_display s.ram s.i_reg _ _ (rest &&& 0x00F) 0 s.display 0 idx

theorem draw_sprite_vf (s : Core) (rest : Nat) :
    (Core.draw_sprite s rest).v_reg 0xF = (if drawCollide s rest then 1 else 0) := by
  simp only [Core.draw_sprite, drawCollide]
  rw [Function.update_same]
  exact drawRows_vf s.ram s.i_reg _ _ (rest &&& 0x00F) 0 s.display 0

theorem draw_sprite_vreg (s : Core) (rest i : Nat) (h : i ≠ 15) :
    (Core.draw_sprite s rest).v_reg i = s.v_reg i := by
  simp only [Core.draw_sprite]
  exact Function.update_noteq h _ _

/-- Claim C1: a draw Dxyn toggles (XORs) exactly the framebuffer
indices described by `drawHit` — origin (Vx mod 64, Vy mod 32) from the
pre-instruction registers, rows `r < n` read from memory[I+r] and
dropped entirely once `initY + r` leaves the 32-row display, bits
taken most-significant-first with a row cut at the 64-column edge, and
sprite-off bits touching nothing; VF (cleared at the start of the
draw) ends 1 exactly when some drawn pixel lands on an on pixel; no
other machine state changes. -/
theorem c1_draw_sprite_pixels (s : Core) (rest : Nat) :
    (∀ idx, (Core.draw_sprite s rest).display idx =
      Bool.xor (s.display idx) (drawHit s rest idx)) ∧
    (Core.draw_sprite s rest).v_reg 0xF = (if drawCollide s rest then 1 else 0) ∧
    (∀ i, i ≠ 0xF → (Core.draw_sprite s rest).v_reg i = s.v_reg i) ∧
    (Core.draw_sprite s rest).pc = s.pc ∧
    (Core.draw_sprite s rest).ram = s.ram ∧
    (Core.draw_sprite s rest).stack = s.stack ∧
    (Core.draw_sprite s rest).i_reg = s.i_reg ∧
    (Core.draw_sprite s rest).d_timer = s.d_timer ∧
    (Core.draw_sprite s rest).s_timer = s.s_timer ∧
    (Core.draw_sprite s rest).legacy = s.legacy := by
  refine ⟨?_, draw_sprite_vf s rest, fun i hi => draw_sprite_vreg s rest i hi,
    rfl, rfl, rfl, rfl, rfl, rfl, rfl⟩
  intro idx
  rw [draw_sprite_display s rest idx]
  rcases Bool.eq_false_or_eq_true (drawHit s rest idx) with h | h <;> simp [h]

def drawTestCore : Core :=
  { mkTestCore false (fun _ => 0) with ram := fun i => if i = 0 then 128 else 0 }

/-- Claim C1 witness: a one-row sprite 0x80 drawn at the origin of a
blank display turns pixel 0 on and leaves V3 untouched. -/
theorem c1_draw_sprite_pixels_witness :
    (Core.draw_sprite drawTestCore 0x011).display 0 =
      Bool.xor (drawTestCore.display 0) (drawHit drawTestCore 0x011 0) ∧
    (Core.draw_sprite drawTestCore 0x011).v_reg 3 = drawTestCore.v_reg 3 :=
  ⟨(c1_draw_sprite_pixels drawTestCore 0x011).1 0,
   (c1_draw_sprite_pixels drawTestCore 0x011).2.2.1 3 (by decide)⟩

/-- Claim C6: drawing the same sprite twice in a row (origin registers
x, y distinct from 0xF, so the first draw's VF write does not move the
origin; memory and I are untouched by draws) restores every
framebuffer pixel — on every machine state, including draws that turn
no pixel on — and the second draw reports a collision (VF = 1)
provided the first draw turned some in-bounds pixel on (a hit index
idx0 that was off before); that proviso guards only the VF conclusion. -/
theorem c6_draw_twice (s : Core) (rest : Nat)
    (hx : (rest &&& 0xF00) >>> 8 ≠ 15) (hy : (rest &&& 0x0F0) >>> 4 ≠ 15) :
    (∀ idx, (Core.draw_sprite (Core.draw_sprite s rest) rest).display idx = s.display idx) ∧
    (∀ idx0, drawHit s rest idx0 = true → s.display idx0 = false →
      (Core.draw_sprite (Core.draw_sprite s rest) rest).v_reg 0xF = 1) := by
  set s1 := Core.draw_sprite s rest with hs1
  have hvx : s1.v_reg ((rest &&& 0xF00) >>> 8) = s.v_reg ((rest &&& 0xF00) >>> 8) :=
    draw_sprite_vreg s rest _ hx
  have hvy : s1.v_reg ((rest &&& 0x0F0) >>> 4) = s.v_reg ((rest &&& 0x0F0) >>> 4) :=
    draw_sprite_vreg s rest _ hy
  have hram : s1.ram = s.ram := rfl
  have hi : s1.i_reg = s.i_reg := rfl
  have hhit1 : ∀ idx, drawHit s1 rest idx = drawHit s rest idx := by
    intro idx
    simp only [drawHit, hvx, hvy, hram, hi]
  have hdisp1 : ∀ idx, s1.display idx =
      (if drawHit s rest idx then !(s.display idx) else s.display idx) :=
    fun idx => draw_sprite_display s rest idx
  constructor
  · intro idx
    rw [draw_sprite_display s1 rest idx, hhit1 idx, hdisp1 idx]
    rcases Bool.eq_false_or_eq_true (drawHit s rest idx) with h | h <;> simp [h]
  · intro idx0 hhit hoff
    rw [draw_sprite_vf s1 rest]
    have hcol : drawCollide s1 rest = true := by
      simp only [drawCollide, hvx, hvy, hram, hi]
      apply collideRows_of_hit s.ram s.i_reg
        (s.v_reg ((rest &&& 0xF00) >>> 8) % 64)
        (s.v_reg ((rest &&& 0x0F0) >>> 4) % 32)
        (rest &&& 0x00F) 0 idx0 s1.display hhit
      rw [hdisp1 idx0, hhit, hoff]
      simp
    rw [hcol]
    rfl

/-- Claim C6 witness: drawing the one-row sprite 0x80 twice at the
origin of a blank display restores pixel 0 and sets VF = 1. -/
theorem c6_draw_twice_witness :
    (Core.draw_sprite (Core.draw_sprite drawTestCore 0x011) 0x011).display 0 =
      drawTestCore.display 0 ∧
    (Core.draw_sprite (Core.draw_sprite drawTestCore 0x011) 0x011).v_reg 0xF = 1 := by
  have h := c6_draw_twice drawTestCore 0x011 (by decide) (by decide)
  exact ⟨h.1 0, h.2 0 (by decide) (by decide)⟩
